import Mathlib

/-!
Verification of the m3w-load-test repository's core algorithms.

The JavaScript sources are embedded shallowly:
* numeric values (CPU percentages, memory in MB, weights, draws) are
  modelled as rationals `ℚ` standing in for IEEE doubles — every claim
  checked here evaluates identically under doubles on its stated inputs;
* byte buffers are modelled as a length together with a byte-valued
  function on indices;
* JavaScript 32-bit operator semantics (`>>`, `&` convert their operands
  with ToInt32 and take the shift count mod 32) are modelled explicitly;
* fallible or guarded computations return `Option`.
-/

set_option allowUnsafeReducibility true

attribute [semireducible] Rat.add Rat.mul Rat.div Rat.inv Rat.blt Rat.sub Rat.normalize Rat.neg mkRat Rat.ofScientific

namespace M3W

/-! ## Aggregate statistics (`scripts/monitor.cjs`, `average` / `percentile`) -/

/-- Embeds `average` of `scripts/monitor.cjs`:
`arr.length > 0 ? arr.reduce((a, b) => a + b, 0) / arr.length : 0`. -/
def average (arr : List ℚ) : ℚ :=
  if arr.length > 0 then arr.sum / arr.length else 0

/-- Computable ceiling of a rational, embedding `Math.ceil`. Written with
`Rat.num`/`Rat.den` so that concrete inputs evaluate inside the kernel;
`jsCeil_eq` identifies it with `Int.ceil`. -/
def jsCeil (q : ℚ) : ℤ := -((-q).num / ((-q).den : ℤ))

/-- The computable ceiling agrees with the mathematical ceiling. -/
theorem jsCeil_eq (q : ℚ) : jsCeil q = ⌈q⌉ := by
  rw [jsCeil, ← Rat.floor_def, Int.floor_neg, neg_neg]

/-- Embeds `percentile` of `scripts/monitor.cjs`:
`if (sortedArr.length === 0) return 0;
 const index = Math.ceil((p / 100) * sortedArr.length) - 1;
 return sortedArr[Math.max(0, index)];`
The indexing is modelled with `List.getD`; every use in the claims keeps the
clamped index in range, where JavaScript indexing returns the element. -/
def percentile (sortedArr : List ℚ) (p : ℚ) : ℚ :=
  if sortedArr.length = 0 then 0
  else sortedArr.getD (max 0 (jsCeil (p / 100 * sortedArr.length) - 1)).toNat 0

/-! ## Capacity estimator (`run-upload-test.cjs` runner, `main`)

In the runner the observed concurrency is the constant `500` and the memory
ceiling the constant `2048`; both appear here as parameters `n` and
`memLimitMB` of the estimate, applied to those constants at the call site.
`Math.max(...xs)` over the nonempty per-container sample lists is embedded
as `maxSamples`. A `none` result models the runner printing no estimate line
(the guard `if (cpuMax > 0)` / `if (memMax > 0)` failing). -/

/-- Computable floor of a rational, embedding `Math.floor`; `jsFloor_eq`
identifies it with `Int.floor`. -/
def jsFloor (q : ℚ) : ℤ := q.num / (q.den : ℤ)

/-- The computable floor agrees with the mathematical floor. -/
theorem jsFloor_eq (q : ℚ) : jsFloor q = ⌊q⌋ := Rat.floor_def.symm

/-- Embeds `Math.max(...samples)`; the runner only applies it to nonempty
sample lists (the stats map only has an entry once a sample was pushed). -/
def maxSamples : List ℚ → ℚ
  | [] => 0
  | x :: xs => xs.foldl max x

/-- Embeds `if (cpuMax > 0) ... Math.floor(500 * (100 / cpuMax))` with the
observed concurrency `500` abstracted as `n`. -/
def cpuBoundEstimate (n : ℚ) (cpuSamples : List ℚ) : Option ℤ :=
  let cpuMax := maxSamples cpuSamples
  if 0 < cpuMax then some (jsFloor (n * (100 / cpuMax))) else none

/-- Embeds `if (memMax > 0) ... Math.floor(500 * (memLimit / memMax))` with
the observed concurrency `500` abstracted as `n`. -/
def memoryBoundEstimate (n memLimitMB : ℚ) (memSamples : List ℚ) : Option ℤ :=
  let memMax := maxSamples memSamples
  if 0 < memMax then some (jsFloor (n * (memLimitMB / memMax))) else none

/-- Embeds `const memLimit = 2048; // 2GB limit`. -/
def memoryCeilingMB : ℚ := 2048

/-! ## Stage scheduler (Load Profiles)

The repository declares Load Profiles as ordered stage lists
(`capacityStages` in `k6/config.js`, `uploadStages` in `k6/upload.js`) and
hands them to the k6 option `stages`; no interpreter function of its own
appears in the sources. -/

/-- A load stage: `{ duration: ..., target: ... }`, with the duration in
milliseconds and the target a concurrency count. -/
structure Stage where
  duration : ℕ
  target : ℕ
  deriving DecidableEq, Repr

/-- Embeds `capacityStages` of `k6/config.js` with durations converted to
milliseconds: `1m`/`3m`/`3m`/`3m`/`3m`/`2m` at targets 1, 10, 25, 50, 100, 0. -/
def capacityStages : List Stage :=
  [⟨60000, 1⟩, ⟨180000, 10⟩, ⟨180000, 25⟩, ⟨180000, 50⟩, ⟨180000, 100⟩, ⟨120000, 0⟩]

/-- Embeds `defaultStages` of `k6/upload.js` with durations converted to
milliseconds: `30s`/`1m`/`2m`/`2m`/`1m` at targets 1, 5, 10, 20, 0. -/
def defaultStages : List Stage :=
  [⟨30000, 1⟩, ⟨60000, 5⟩, ⟨120000, 10⟩, ⟨120000, 20⟩, ⟨60000, 0⟩]

/-- Modelled from the spec: the repository has no `concurrencyAt`
implementation of its own (only the stage lists above); the Stage Scheduler
contract of §4.2 is modelled here. `concurrencyAt stages t` walks the
profile front to back: a time inside the leading stage's duration yields
that stage's target; a time past it recurses into the remaining stages with
the elapsed time shifted; past the final stage the last target is held
(terminal hold), and the empty profile yields 0. -/
def concurrencyAt : List Stage → ℕ → ℕ
  | [], _ => 0
  | [s], _ => s.target
  | s :: s2 :: rest, t =>
    if t < s.duration then s.target
    else concurrencyAt (s2 :: rest) (t - s.duration)

/-- Cumulative start time of stage `i` in a profile: the sum of the
durations of the stages before it. -/
def stageStart (stages : List Stage) (i : ℕ) : ℕ :=
  ((stages.take i).map Stage.duration).sum

/-- Total duration of a profile: the sum of all stage durations. -/
def totalDuration (stages : List Stage) : ℕ :=
  (stages.map Stage.duration).sum

/-! ## Content synthesizer (`k6/upload.js`, `createUniqueFileData`)

A byte buffer (`Uint8Array`) is modelled as a length plus a byte-valued
function on indices; only indices below the length are meaningful.
JavaScript's `x >> k` first converts `x` to a signed 32-bit integer
(ToInt32) and shifts by `k % 32` (arithmetic shift, i.e. floor division by
a power of two); `& 0xFF` then takes the low byte of the two's-complement
value. An assignment `array[i] = v` to a `Uint8Array` index at or past the
length is silently ignored. All three behaviours are modelled explicitly. -/

/-- JavaScript ToInt32 of a non-negative number: reduce mod `2^32` into the
signed range `[-2^31, 2^31)`. -/
def jsToInt32 (n : ℕ) : ℤ :=
  let m := n % 4294967296
  if m < 2147483648 then (m : ℤ) else (m : ℤ) - 4294967296

/-- Embeds `(x >> k) & 0xFF`: ToInt32, arithmetic shift by `k % 32`
(floor division by `2^(k % 32)`), then the low two's-complement byte. -/
def jsShiftByte (x k : ℕ) : ℕ :=
  ((jsToInt32 x).fdiv (2 ^ (k % 32)) % 256).toNat

/-- For effective shifts of at most 24 bits, the JavaScript shifted byte is
the corresponding base-256 digit of the operand's low 32 bits: the ToInt32
wrap-around is a multiple of `2^32`, which after a shift of `j ≤ 24` bits is
still a multiple of 256 and so invisible in the extracted byte. -/
theorem jsShiftByte_eq (x k : ℕ) (hk : k % 32 ≤ 24) :
    jsShiftByte x k = x % 4294967296 / 2 ^ (k % 32) % 256 := by
  unfold jsShiftByte jsToInt32
  set j := k % 32 with hj
  set m := x % 4294967296 with hm
  have hcast : ((2:ℤ) ^ j) = ((2 ^ j : ℕ) : ℤ) := by push_cast; ring
  rw [Int.fdiv_eq_ediv _ (by positivity)]
  by_cases hcase : m < 2147483648
  · rw [if_pos hcase, hcast, ← Int.natCast_div]
    omega
  · rw [if_neg hcase]
    have key : (m:ℤ) - 4294967296 = (m:ℤ) + (-((2:ℤ)^(32-j))) * 2^j := by
      have h32 : (2:ℤ)^(32-j) * 2^j = 2^32 := by
        rw [← pow_add]
        congr 1
        omega
      have h2 : ((4294967296 : ℤ)) = 2^32 := by norm_num
      rw [h2, ← h32]
      ring
    rw [key, Int.add_mul_ediv_right _ _ (by positivity : (0:ℤ) < 2^j).ne']
    have hsplit : (-((2:ℤ)^(32-j))) = (-((2:ℤ)^(24-j))) * 256 := by
      have h8 : ((256:ℤ)) = 2^8 := by norm_num
      rw [h8, neg_mul, neg_inj, ← pow_add]
      congr 1
      omega
    rw [hsplit, Int.add_mul_emod_self, hcast, ← Int.natCast_div]
    omega

/-- The byte the synthesizer writes at window offset `i` (for
`100 ≤ i ≤ 115`): `createUniqueFileData` writes `vu` shifted by
56/48/.../0 → here offsets 100–103 get `vu >> 24 ... vu >> 0`, offsets
104–107 get `iter`, offsets 108–115 get the timestamp shifted by
`56, 48, ..., 0`. -/
def windowByte (vu iter timestamp i : ℕ) : ℕ :=
  if i = 100 then jsShiftByte vu 24
  else if i = 101 then jsShiftByte vu 16
  else if i = 102 then jsShiftByte vu 8
  else if i = 103 then jsShiftByte vu 0
  else if i = 104 then jsShiftByte iter 24
  else if i = 105 then jsShiftByte iter 16
  else if i = 106 then jsShiftByte iter 8
  else if i = 107 then jsShiftByte iter 0
  else if i = 108 then jsShiftByte timestamp 56
  else if i = 109 then jsShiftByte timestamp 48
  else if i = 110 then jsShiftByte timestamp 40
  else if i = 111 then jsShiftByte timestamp 32
  else if i = 112 then jsShiftByte timestamp 24
  else if i = 113 then jsShiftByte timestamp 16
  else if i = 114 then jsShiftByte timestamp 8
  else if i = 115 then jsShiftByte timestamp 0
  else 0

/-- A `Uint8Array`: a length and the byte at each index below it. -/
structure JsBuffer where
  len : ℕ
  byteAt : ℕ → ℕ

/-- Embeds `createUniqueFileData(vu, iter)` of `k6/upload.js` with the
`Date.now()` value passed explicitly: allocate `new Uint8Array(data.length)`,
copy the base with `set`, then assign the 16 window bytes at offsets
100–115. An assignment whose offset is at or past the length is a silent
no-op (`Uint8Array` semantics), hence the `i < base.len` conjunct. -/
def createUniqueFileData (base : JsBuffer) (vu iter timestamp : ℕ) : JsBuffer where
  len := base.len
  byteAt := fun i =>
    if 100 ≤ i ∧ i ≤ 115 ∧ i < base.len then windowByte vu iter timestamp i
    else base.byteAt i

/-- The byte that a true big-endian `numBytes`-byte encoding of `x` (as the
spec describes the reserved window) would place at position `j`. -/
def beByte (x numBytes j : ℕ) : ℕ :=
  x / 2 ^ (8 * (numBytes - 1 - j)) % 256

/-! ## Phase selector (`k6/capacity.js`, `default` function)

The iteration body draws `rand = Math.random()` and runs the cascade
`if (rand < behavior.startup) ... else if (rand < behavior.startup +
behavior.listening) ... else ...`. There is no validation of the weight
table anywhere in the sources. -/

/-- The three behavioural phases of `k6/capacity.js`. -/
inductive Phase where
  | startup
  | listening
  | managing
  deriving DecidableEq, Repr

/-- Embeds `behavior.startup = 0.05` of `k6/config.js`. -/
def behaviorStartup : ℚ := 0.05

/-- Embeds `behavior.listening = 0.85` of `k6/config.js`. -/
def behaviorListening : ℚ := 0.85

/-- Embeds `behavior.managing = 0.10` of `k6/config.js`. -/
def behaviorManaging : ℚ := 0.10

/-- Embeds the phase-selection cascade of the `default` function in
`k6/capacity.js`: only the startup and listening weights are consulted;
the managing weight is implicit in the final `else`. -/
def selectPhase (wStartup wListening rand : ℚ) : Phase :=
  if rand < wStartup then Phase.startup
  else if rand < wStartup + wListening then Phase.listening
  else Phase.managing

/-- The spec's selection rule, stated independently: walk the weight table
accumulating cumulative upper bounds and return the first phase whose
cumulative upper bound exceeds the draw (`none` if no bound does). -/
def firstExceeding (draw : ℚ) : List (Phase × ℚ) → ℚ → Option Phase
  | [], _ => none
  | (p, w) :: rest, acc =>
    if draw < acc + w then some p else firstExceeding draw rest (acc + w)

/-! ## Telemetry sampler (`scripts/monitor.cjs`, `monitor` and `parseMemory`)

Strings are handled as `String`/`List Char`; regular expressions are
modelled by the scans they perform on the shapes of text they are applied
to in the claims (a numeric run `[\d.]+`, a following word run `\w+`). -/

/-- Character class `[\d.]` of the stats regexes. -/
def isNumDot (c : Char) : Bool := c.isDigit || c = '.'

/-- Character class `\w` (ASCII letters, digits, underscore). -/
def isWordChar (c : Char) : Bool :=
  c.isAlpha || c.isDigit || c = '_'

/-- Substring test, embedding JavaScript `String.prototype.includes`. -/
def hasInfix : List Char → List Char → Bool
  | [], need => need.isEmpty
  | c :: t, need => need.isPrefixOf (c :: t) || hasInfix t need

/-- Embeds JavaScript `String.prototype.replace` with a string pattern:
replace only the first occurrence, leave the string unchanged if the
pattern does not occur. -/
def replaceFirst (pat rep : List Char) : List Char → List Char
  | [] => if pat.isEmpty then rep else []
  | c :: t =>
    if pat.isPrefixOf (c :: t) then rep ++ (c :: t).drop pat.length
    else c :: replaceFirst pat rep t

/-- Numeric value of a digit run (most significant first). -/
def digitsVal (l : List Char) : ℕ :=
  l.foldl (fun a c => a * 10 + (c.toNat - 48)) 0

/-- Embeds `parseFloat` on the strings the stats regexes capture (a group
matching `[\d.]+`): integer digits, then an optional fraction after the
first dot; later characters (a second dot onwards) are ignored, as
`parseFloat` ignores them. -/
def jsParseFloat (s : List Char) : ℚ :=
  let intPart := s.takeWhile Char.isDigit
  let rest := s.dropWhile Char.isDigit
  match rest with
  | '.' :: r =>
    (digitsVal intPart : ℚ) + (digitsVal (r.takeWhile Char.isDigit) : ℚ) / 10 ^ (r.takeWhile Char.isDigit).length
  | _ => (digitsVal intPart : ℚ)

/-- Embeds `parseMemory(value, unit)` of `scripts/monitor.cjs`:
lower-case the unit, then `includes`-test for gib/gb (×1024), mib/mb
(as-is), kib/kb (÷1024), defaulting to the value unchanged. -/
def parseMemory (value : ℚ) (unit : List Char) : ℚ :=
  let unitLower := unit.map Char.toLower
  if hasInfix unitLower ['g', 'i', 'b'] || hasInfix unitLower ['g', 'b'] then value * 1024
  else if hasInfix unitLower ['m', 'i', 'b'] || hasInfix unitLower ['m', 'b'] then value
  else if hasInfix unitLower ['k', 'i', 'b'] || hasInfix unitLower ['k', 'b'] then value / 1024
  else value

/-- Embeds `parts[1].match(/([\d.]+)/)`: the first maximal run of `[\d.]`
characters, or `none` when no such character occurs. -/
def firstNumRun : List Char → Option (List Char)
  | [] => none
  | c :: t => if isNumDot c then some (c :: t.takeWhile isNumDot) else firstNumRun t

/-- Embeds `parts[2].match(/([\d.]+)(\w+)/)` on the docker-stats memory
field: the first maximal `[\d.]` run that is directly followed by at least
one `\w` character, paired with that following `\w` run. (On such inputs —
every memory string the sampler meets, e.g. `256MiB / 2GiB` — this is
exactly the regex's match; the regex's backtracking on other shapes is not
modelled.) -/
def memMatch : List Char → Option (List Char × List Char)
  | [] => none
  | c :: t =>
    if isNumDot c then
      let rest := t.dropWhile isNumDot
      let word := rest.takeWhile isWordChar
      if word.isEmpty then memMatch rest
      else some (c :: t.takeWhile isNumDot, word)
    else memMatch t
  termination_by l => l.length
  decreasing_by
    · simp only [List.length_cons]
      have := (List.dropWhile_sublist isNumDot (l := t)).length_le
      omega
    · simp

/-- The memory reading a tick records from a memory field: the value of the
first captured numeric run converted by `parseMemory` with the captured
unit, `0` when the regex does not match (`let memMB = 0` in the source). -/
def memField (s : List Char) : ℚ :=
  match memMatch s with
  | some (num, unit) => parseMemory (jsParseFloat num) unit
  | none => 0

/-- The CPU reading a tick records from a CPU field:
`cpuMatch ? parseFloat(cpuMatch[1]) : 0`. -/
def cpuField (s : List Char) : ℚ :=
  match firstNumRun s with
  | some num => jsParseFloat num
  | none => 0

/-- The container-name filter token of the tick loop. -/
def m3wNeedle : List Char := ("m3w-load-test").toList

/-- The name-shortening pattern `m3w-load-test-`. -/
def m3wDashNeedle : List Char := ("m3w-load-test-").toList

/-- The shortened service name `m3w`. -/
def m3wShort : List Char := ("m3w").toList

/-- The tab separator of the stats format string. -/
def tabSep : String := ("\t")

/-- The newline separator of the stats output. -/
def newlineSep : String := ("\n")

/-- The empty string (out-of-range `parts[i]` never occurs behind the
length guard; `getD` needs a default). -/
def emptyStr : String := ("")

/-- Per-container reading of one tick. -/
structure ContainerStat where
  cpu : ℚ
  memMB : ℚ
  deriving DecidableEq, Repr

/-- One buffered Sample: elapsed milliseconds plus the readings of every
container seen on that tick. -/
structure Sample where
  timestamp : ℕ
  containers : List (String × ContainerStat)
  deriving DecidableEq, Repr

/-- Key assignment on the insertion-ordered map modelling the JavaScript
`containers` object: overwrite an existing key in place, else append. -/
def setEntry : List (String × ContainerStat) → String → ContainerStat → List (String × ContainerStat)
  | [], k, v => [(k, v)]
  | (k0, v0) :: t, k, v =>
    if k0 = k then (k, v) :: t else (k0, v0) :: setEntry t k v

/-- Embeds the per-line body of the tick loop in `monitor()`: skip lines
without `m3w-load-test`, split on tabs, require three fields, shorten the
container name, parse the CPU and memory fields, store under the name. -/
def parseLine (acc : List (String × ContainerStat)) (line : String) : List (String × ContainerStat) :=
  if !hasInfix line.toList m3wNeedle then acc
  else
    let parts := line.splitOn tabSep
    if parts.length < 3 then acc
    else
      let name :=
        (replaceFirst m3wNeedle m3wShort
          (replaceFirst m3wDashNeedle [] (parts.getD 0 emptyStr).toList)).asString
      let cpu := cpuField (parts.getD 1 emptyStr).toList
      let memMB := memField (parts.getD 2 emptyStr).toList
      setEntry acc name ⟨cpu, memMB⟩

/-- Embeds one timer tick of `monitor()`. The `execSync` call either throws
(`none` — the catch block swallows the error and the buffer is untouched)
or yields the stats text, whose trimmed lines are folded into a container
map; a Sample is appended only when the map is nonempty. -/
def monitorTick (samples : List Sample) (elapsed : ℕ) (out : Option String) : List Sample :=
  match out with
  | none => samples
  | some output =>
    let containers := (output.trim.splitOn newlineSep).foldl parseLine []
    if containers.isEmpty then samples else samples ++ [⟨elapsed, containers⟩]

/-- A whole monitoring run: fold the ticks (elapsed time paired with the
stats command's outcome) over the initially empty buffer `samples = []`. -/
def monitorRun (ticks : List (ℕ × Option String)) : List Sample :=
  ticks.foldl (fun s t => monitorTick s t.1 t.2) []

end M3W




namespace M3W

/-- Helper: the clamped nearest-rank index for p = 95 is in range for a
nonempty list: `⌈0.95·n⌉ ≤ n` for every `n ≥ 1`. -/
theorem p95_index_lt (n : ℕ) (hn : 1 ≤ n) :
    (max 0 (⌈(95:ℚ) / 100 * n⌉ - 1)).toNat < n := by
  have hceil : ⌈(95:ℚ) / 100 * n⌉ ≤ (n:ℤ) := by
    rw [Int.ceil_le]
    push_cast
    have hn1 : (1:ℚ) ≤ (n:ℚ) := by exact_mod_cast hn
    nlinarith [hn1]
  omega

/-- C1: applied to an ascending-sorted nonempty list with p = 95, the
percentile function returns the element at index `⌈0.95·count⌉ − 1`
(clamped to be ≥ 0, and always in range), and on the spec's two sample
sets it returns 100 and 4. -/
theorem percentile_nearest_rank_p95 (l : List ℚ) (hne : l ≠ [])
    (_hsorted : l.Sorted (· ≤ ·)) :
    percentile l 95 = l.getD (max 0 (⌈(95:ℚ) / 100 * l.length⌉ - 1)).toNat 0
    ∧ (max 0 (⌈(95:ℚ) / 100 * l.length⌉ - 1)).toNat < l.length
    ∧ percentile [10, 20, 30, 40, 100] 95 = 100
    ∧ percentile [1, 2, 3, 4] 95 = 4 := by
  refine ⟨?_, ?_, by decide, by decide⟩
  · rw [percentile, if_neg (by simpa using hne), jsCeil_eq]
  · exact p95_index_lt l.length (by simpa using List.length_pos.mpr hne)

/-- Witness for C1 at the spec's concrete sample set. -/
theorem percentile_nearest_rank_p95_witness :
    ([10, 20, 30, 40, 100] : List ℚ) ≠ []
    ∧ ([10, 20, 30, 40, 100] : List ℚ).Sorted (· ≤ ·)
    ∧ percentile [10, 20, 30, 40, 100] 95 = 100 :=
  ⟨by decide, by decide,
    (percentile_nearest_rank_p95 [10, 20, 30, 40, 100] (by decide) (by decide)).2.2.1⟩

/-- C10: both aggregate functions are total on the empty sample list and
return 0 there, for every percentile rank p. -/
theorem aggregates_empty_total :
    average [] = 0 ∧ ∀ p : ℚ, percentile [] p = 0 :=
  ⟨rfl, fun _ => rfl⟩

/-- Witness for C10 at a concrete rank. -/
theorem aggregates_empty_total_witness :
    average [] = 0 ∧ percentile [] 95 = 0 :=
  ⟨aggregates_empty_total.1, aggregates_empty_total.2 95⟩

/-- C2: with a positive observed maximum the capacity estimates are the
floors of `N·100/cpuMax` and `N·memoryCeiling/memMax`; for `cpuMax = 40`
and `N = 20` the CPU-bound estimate is 50; and a zero maximum yields
`none` (no estimate printed — "unbounded") instead of a crash. -/
theorem capacity_estimator_spec :
    (∀ (n : ℚ) (cpuSamples : List ℚ), 0 < maxSamples cpuSamples →
      cpuBoundEstimate n cpuSamples = some ⌊n * 100 / maxSamples cpuSamples⌋)
    ∧ (∀ (n : ℚ) (memSamples : List ℚ), 0 < maxSamples memSamples →
      memoryBoundEstimate n memoryCeilingMB memSamples
        = some ⌊n * memoryCeilingMB / maxSamples memSamples⌋)
    ∧ cpuBoundEstimate 20 [40] = some 50
    ∧ (∀ (n : ℚ) (l : List ℚ), maxSamples l = 0 →
      cpuBoundEstimate n l = none ∧ memoryBoundEstimate n memoryCeilingMB l = none) := by
  refine ⟨?_, ?_, by decide, ?_⟩
  · intro n s h
    rw [cpuBoundEstimate, if_pos h, jsFloor_eq, mul_div_assoc]
  · intro n s h
    rw [memoryBoundEstimate, if_pos h, jsFloor_eq, mul_div_assoc]
  · intro n l h
    constructor
    · rw [cpuBoundEstimate, if_neg (by rw [h]; exact lt_irrefl 0)]
    · rw [memoryBoundEstimate, if_neg (by rw [h]; exact lt_irrefl 0)]

/-- Witness for C2 at the spec's concrete projection and at a zero maximum. -/
theorem capacity_estimator_spec_witness :
    0 < maxSamples [40]
    ∧ cpuBoundEstimate 20 [40] = some ⌊(20:ℚ) * 100 / maxSamples [40]⌋
    ∧ maxSamples [0] = 0
    ∧ cpuBoundEstimate 7 [0] = none :=
  ⟨by decide, capacity_estimator_spec.1 20 [40] (by decide), by decide,
    (capacity_estimator_spec.2.2.2 7 [0] (by decide)).1⟩

end M3W

namespace M3W

/-- Helper: a time inside stage `i`'s cumulative interval yields that
stage's target. -/
theorem concurrencyAt_in_stage (stages : List Stage) (i : ℕ) (hi : i < stages.length)
    (t : ℕ) (h1 : stageStart stages i ≤ t)
    (h2 : t < stageStart stages i + (stages.get ⟨i, hi⟩).duration) :
    concurrencyAt stages t = (stages.get ⟨i, hi⟩).target := by
  induction stages generalizing i t with
  | nil => exact absurd hi (by simp)
  | cons s rest ih =>
    cases i with
    | zero =>
      have hs : stageStart (s :: rest) 0 = 0 := rfl
      rw [hs] at h1 h2
      simp only [List.get] at h2 ⊢
      cases rest with
      | nil => rfl
      | cons s2 r =>
        rw [concurrencyAt, if_pos (by omega)]
    | succ j =>
      have hj : j < rest.length := by simpa using hi
      have hstart : stageStart (s :: rest) (j + 1) = s.duration + stageStart rest j := by
        simp [stageStart, List.take_succ_cons]
      rw [hstart] at h1 h2
      have hget : (s :: rest).get ⟨j + 1, hi⟩ = rest.get ⟨j, hj⟩ := rfl
      rw [hget] at h2 ⊢
      cases rest with
      | nil => exact absurd hj (by simp)
      | cons s2 r =>
        rw [concurrencyAt, if_neg (by omega)]
        exact ih j hj (t - s.duration) (by omega) (by omega)

/-- Helper: past the whole profile the last stage's target is held. -/
theorem concurrencyAt_terminal (stages : List Stage) (h : stages ≠ []) (t : ℕ)
    (ht : totalDuration stages ≤ t) :
    concurrencyAt stages t = (stages.getLast h).target := by
  induction stages generalizing t with
  | nil => exact absurd rfl h
  | cons s rest ih =>
    cases rest with
    | nil => rfl
    | cons s2 r =>
      have htot : totalDuration (s :: s2 :: r) = s.duration + totalDuration (s2 :: r) := by
        simp [totalDuration]
      rw [concurrencyAt, if_neg (by omega), List.getLast_cons (by simp)]
      exact ih (by simp) (t - s.duration) (by omega)

/-- C3: for every Load Profile, `concurrencyAt` is a step function — every
time inside stage `i`'s cumulative interval yields that stage's target (so
two times in the same interval yield equal values, with no interpolation) —
and past the profile's total duration the last stage's target is held,
with 0 for the empty profile. -/
theorem concurrencyAt_step_function :
    (∀ (stages : List Stage) (i : ℕ) (hi : i < stages.length) (t1 t2 : ℕ),
      stageStart stages i ≤ t1 →
      t1 < stageStart stages i + (stages.get ⟨i, hi⟩).duration →
      stageStart stages i ≤ t2 →
      t2 < stageStart stages i + (stages.get ⟨i, hi⟩).duration →
      concurrencyAt stages t1 = (stages.get ⟨i, hi⟩).target
        ∧ concurrencyAt stages t1 = concurrencyAt stages t2)
    ∧ (∀ (stages : List Stage) (h : stages ≠ []) (t : ℕ),
      totalDuration stages ≤ t → concurrencyAt stages t = (stages.getLast h).target)
    ∧ (∀ t : ℕ, concurrencyAt [] t = 0) := by
  refine ⟨?_, concurrencyAt_terminal, fun _ => rfl⟩
  intro stages i hi t1 t2 ha hb hc hd
  have e1 := concurrencyAt_in_stage stages i hi t1 ha hb
  have e2 := concurrencyAt_in_stage stages i hi t2 hc hd
  exact ⟨e1, e1.trans e2.symm⟩

/-- Witness for C3 on the repository's capacity profile: 100 ms and
30000 ms both lie in the warm-up stage and agree, and a time past the
profile's 14-minute total yields the cool-down target 0. -/
theorem concurrencyAt_step_function_witness :
    (concurrencyAt capacityStages 100 = 1
      ∧ concurrencyAt capacityStages 100 = concurrencyAt capacityStages 30000)
    ∧ concurrencyAt capacityStages 999999999 = 0 := by
  constructor
  · have h := concurrencyAt_step_function.1 capacityStages 0 (by decide) 100 30000
      (by decide) (by decide) (by decide) (by decide)
    exact h
  · exact concurrencyAt_step_function.2.1 capacityStages (by decide) 999999999 (by decide)

end M3W

namespace M3W

/-- Helper: the shifted byte of an operand below `2^32` for shifts of
24 bits or less needs no wrap-around. -/
theorem jsShiftByte_small (x k : ℕ) (hx : x < 4294967296) (hk : k % 32 ≤ 24) :
    jsShiftByte x k = x / 2 ^ (k % 32) % 256 := by
  rw [jsShiftByte_eq x k hk, Nat.mod_eq_of_lt hx]

/-- C5 (amended): the synthesizer only rewrites the 16-byte window at
offsets 100–115, leaving length and all other bytes equal to the base; the
window holds the big-endian 4-byte `workerId` and `iterationId`, but —
because JavaScript `>>` reduces its shift count mod 32 after truncating the
operand with ToInt32 — offsets 108–111 and 112–115 each hold the big-endian
low 32 bits of the timestamp (not one big-endian 8-byte encoding). -/
theorem createUniqueFileData_window_spec (base : JsBuffer) (vu iter t i : ℕ)
    (hvu : vu < 2147483648) (hiter : iter < 2147483648) (hi : i < base.len) :
    (createUniqueFileData base vu iter t).len = base.len
    ∧ (createUniqueFileData base vu iter t).byteAt i =
        (if 100 ≤ i ∧ i ≤ 103 then beByte vu 4 (i - 100)
        else if 104 ≤ i ∧ i ≤ 107 then beByte iter 4 (i - 104)
        else if 108 ≤ i ∧ i ≤ 111 then beByte (t % 4294967296) 4 (i - 108)
        else if 112 ≤ i ∧ i ≤ 115 then beByte (t % 4294967296) 4 (i - 112)
        else base.byteAt i) := by
  refine ⟨rfl, ?_⟩
  show (if 100 ≤ i ∧ i ≤ 115 ∧ i < base.len then windowByte vu iter t i
        else base.byteAt i) = _
  have hvu32 : vu < 4294967296 := by omega
  have hit32 : iter < 4294967296 := by omega
  have ht32 : t % 4294967296 < 4294967296 := Nat.mod_lt _ (by norm_num)
  by_cases hw : 100 ≤ i ∧ i ≤ 115
  · rw [if_pos ⟨hw.1, hw.2, hi⟩]
    obtain ⟨ha, hb⟩ := hw
    have e24 : jsShiftByte vu 24 = vu / 2 ^ 24 % 256 := by
      simpa using jsShiftByte_small vu 24 hvu32 (by norm_num)
    have e16 : jsShiftByte vu 16 = vu / 2 ^ 16 % 256 := by
      simpa using jsShiftByte_small vu 16 hvu32 (by norm_num)
    have e8 : jsShiftByte vu 8 = vu / 2 ^ 8 % 256 := by
      simpa using jsShiftByte_small vu 8 hvu32 (by norm_num)
    have e0 : jsShiftByte vu 0 = vu % 256 := by
      simpa using jsShiftByte_small vu 0 hvu32 (by norm_num)
    have f24 : jsShiftByte iter 24 = iter / 2 ^ 24 % 256 := by
      simpa using jsShiftByte_small iter 24 hit32 (by norm_num)
    have f16 : jsShiftByte iter 16 = iter / 2 ^ 16 % 256 := by
      simpa using jsShiftByte_small iter 16 hit32 (by norm_num)
    have f8 : jsShiftByte iter 8 = iter / 2 ^ 8 % 256 := by
      simpa using jsShiftByte_small iter 8 hit32 (by norm_num)
    have f0 : jsShiftByte iter 0 = iter % 256 := by
      simpa using jsShiftByte_small iter 0 hit32 (by norm_num)
    have g56 : jsShiftByte t 56 = t % 4294967296 / 2 ^ 24 % 256 := by
      simpa using jsShiftByte_eq t 56 (by norm_num)
    have g48 : jsShiftByte t 48 = t % 4294967296 / 2 ^ 16 % 256 := by
      simpa using jsShiftByte_eq t 48 (by norm_num)
    have g40 : jsShiftByte t 40 = t % 4294967296 / 2 ^ 8 % 256 := by
      simpa using jsShiftByte_eq t 40 (by norm_num)
    have g32 : jsShiftByte t 32 = t % 4294967296 % 256 := by
      simpa using jsShiftByte_eq t 32 (by norm_num)
    have g24 : jsShiftByte t 24 = t % 4294967296 / 2 ^ 24 % 256 := by
      simpa using jsShiftByte_eq t 24 (by norm_num)
    have g16 : jsShiftByte t 16 = t % 4294967296 / 2 ^ 16 % 256 := by
      simpa using jsShiftByte_eq t 16 (by norm_num)
    have g8 : jsShiftByte t 8 = t % 4294967296 / 2 ^ 8 % 256 := by
      simpa using jsShiftByte_eq t 8 (by norm_num)
    have g0 : jsShiftByte t 0 = t % 4294967296 % 256 := by
      simpa using jsShiftByte_eq t 0 (by norm_num)
    interval_cases i <;>
      simp [windowByte, beByte, e24, e16, e8, e0, f24, f16, f8, f0,
        g56, g48, g40, g32, g24, g16, g8, g0]
  · rw [if_neg (by omega), if_neg (by omega), if_neg (by omega),
      if_neg (by omega), if_neg (by omega)]

end M3W

namespace M3W

/-- Witness for C5 at a concrete buffer, identifiers, timestamp and index. -/
theorem createUniqueFileData_window_spec_witness :
    (1:ℕ) < 2147483648 ∧ (2:ℕ) < 2147483648 ∧ (104:ℕ) < 5242880
    ∧ (createUniqueFileData ⟨5242880, fun _ => 0⟩ 1 2 3).byteAt 104 = beByte 2 4 0 :=
  ⟨by decide, by decide, by decide,
    ((createUniqueFileData_window_spec ⟨5242880, fun _ => 0⟩ 1 2 3 104
      (by decide) (by decide) (by decide)).2).trans (by decide)⟩

/-- Counterexample for C5 as stated: at timestamp `2^32` the true 8-byte
big-endian encoding has byte 1 at position 3 (offset 111), but the code —
shifting by `32 % 32 = 0` after ToInt32 truncation to 0 — writes byte 0. -/
theorem createUniqueFileData_timestamp_cex :
    (createUniqueFileData ⟨5242880, fun _ => 0⟩ 1 1 4294967296).byteAt 111 = 0
    ∧ beByte 4294967296 8 3 = 1 :=
  ⟨by decide, by decide⟩

/-- C4 (amended): for every 5,242,880-byte base and timestamp, the outputs
for (worker 1, iteration 1) and (worker 1, iteration 2) have length exactly
5,242,880 and differ from each other at offset 107 (the iteration id's low
byte); each differs from the base at that offset whenever the base byte
there differs from the written iteration byte — but not unconditionally,
see the counterexample. -/
theorem createUniqueFileData_variants_differ (base : ℕ → ℕ) (t : ℕ) :
    (createUniqueFileData ⟨5242880, base⟩ 1 1 t).len = 5242880
    ∧ (createUniqueFileData ⟨5242880, base⟩ 1 2 t).len = 5242880
    ∧ (createUniqueFileData ⟨5242880, base⟩ 1 1 t).byteAt 107 = 1
    ∧ (createUniqueFileData ⟨5242880, base⟩ 1 2 t).byteAt 107 = 2
    ∧ (createUniqueFileData ⟨5242880, base⟩ 1 1 t).byteAt 107
        ≠ (createUniqueFileData ⟨5242880, base⟩ 1 2 t).byteAt 107
    ∧ (base 107 ≠ 1 →
        (createUniqueFileData ⟨5242880, base⟩ 1 1 t).byteAt 107 ≠ base 107) := by
  have hw107 : ∀ v it ts : ℕ, windowByte v it ts 107 = jsShiftByte it 0 := by
    intro v it ts
    norm_num [windowByte]
  have h1 : (createUniqueFileData ⟨5242880, base⟩ 1 1 t).byteAt 107 = 1 := by
    show (if 100 ≤ 107 ∧ 107 ≤ 115 ∧ 107 < 5242880 then windowByte 1 1 t 107
          else base 107) = 1
    rw [if_pos (by omega), hw107]
    decide
  have h2 : (createUniqueFileData ⟨5242880, base⟩ 1 2 t).byteAt 107 = 2 := by
    show (if 100 ≤ 107 ∧ 107 ≤ 115 ∧ 107 < 5242880 then windowByte 1 2 t 107
          else base 107) = 2
    rw [if_pos (by omega), hw107]
    decide
  refine ⟨rfl, rfl, h1, h2, by omega, ?_⟩
  intro hb
  rw [h1]
  omega

/-- Witness for C4 at the all-zero base and timestamp 0. -/
theorem createUniqueFileData_variants_differ_witness :
    ((fun _ => (0:ℕ)) 107 ≠ 1)
    ∧ (createUniqueFileData ⟨5242880, fun _ => 0⟩ 1 1 0).byteAt 107 ≠ (fun _ => (0:ℕ)) 107 :=
  ⟨by decide, (createUniqueFileData_variants_differ (fun _ => 0) 0).2.2.2.2.2 (by decide)⟩

/-- An adversarial base whose reserved window already holds exactly the
bytes the synthesizer writes for worker 1, iteration 1, timestamp 0. -/
def collidingBase : ℕ → ℕ := fun i => if i = 103 ∨ i = 107 then 1 else 0

/-- Counterexample for C4 as stated: on `collidingBase` (length 5,242,880)
at timestamp 0, the synthesized output for (worker 1, iteration 1) is
byte-for-byte equal to the base — "each differs from the base buffer" does
not hold for every base. -/
theorem createUniqueFileData_variants_cex :
    (createUniqueFileData ⟨5242880, collidingBase⟩ 1 1 0).len = 5242880
    ∧ (createUniqueFileData ⟨5242880, collidingBase⟩ 1 1 0).byteAt = collidingBase := by
  refine ⟨rfl, funext fun i => ?_⟩
  show (if 100 ≤ i ∧ i ≤ 115 ∧ i < 5242880 then windowByte 1 1 0 i
        else collidingBase i) = collidingBase i
  by_cases hw : 100 ≤ i ∧ i ≤ 115
  · rw [if_pos ⟨hw.1, hw.2, by omega⟩]
    obtain ⟨ha, hb⟩ := hw
    interval_cases i <;> decide
  · rw [if_neg (by omega)]

/-- C6 (amended): for a base shorter than the window offset the synthesizer
does not fail — every window write lands out of bounds and is silently
ignored, so the output has the base's length and all its bytes. -/
theorem createUniqueFileData_short_base (base : JsBuffer) (vu iter t : ℕ)
    (hlen : base.len ≤ 100) :
    (createUniqueFileData base vu iter t).len = base.len
    ∧ ∀ i < base.len, (createUniqueFileData base vu iter t).byteAt i = base.byteAt i := by
  refine ⟨rfl, fun i hi => ?_⟩
  show (if 100 ≤ i ∧ i ≤ 115 ∧ i < base.len then windowByte vu iter t i
        else base.byteAt i) = base.byteAt i
  rw [if_neg (by omega)]

/-- Witness for C6 at a 50-byte base. -/
theorem createUniqueFileData_short_base_witness :
    (50:ℕ) ≤ 100
    ∧ (createUniqueFileData ⟨50, fun _ => 0⟩ 7 9 123456789).byteAt 3 = (fun _ => (0:ℕ)) 3 :=
  ⟨by decide,
    (createUniqueFileData_short_base ⟨50, fun _ => 0⟩ 7 9 123456789 (by decide)).2 3 (by decide)⟩

/-- Counterexample for C6 as stated: on a 50-byte base the synthesizer does
not fail with any `InvalidInputSize` condition (none exists in the sources);
it returns a complete buffer identical to the base. -/
theorem createUniqueFileData_no_failure_cex :
    (createUniqueFileData ⟨50, fun _ => 1⟩ 1 1 0).len = 50
    ∧ (createUniqueFileData ⟨50, fun _ => 1⟩ 1 1 0).byteAt = (fun _ => (1:ℕ)) := by
  refine ⟨rfl, funext fun i => ?_⟩
  show (if 100 ≤ i ∧ i ≤ 115 ∧ i < 50 then windowByte 1 1 0 i else 1) = 1
  rw [if_neg (by omega)]

end M3W

namespace M3W

/-- C7 (amended): for every weight table with positive weights summing to 1
and every draw in [0,1), the selection cascade returns exactly the first
phase whose cumulative upper bound exceeds the draw. (The sources perform
no validation of the weight table; no `InvalidWeights` failure exists —
see the counterexample.) -/
theorem selectPhase_cumulative (w1 w2 w3 d : ℚ) (_hw1 : 0 < w1) (_hw2 : 0 < w2)
    (_hw3 : 0 < w3) (hsum : w1 + w2 + w3 = 1) (_hd0 : 0 ≤ d) (hd1 : d < 1) :
    firstExceeding d [(Phase.startup, w1), (Phase.listening, w2), (Phase.managing, w3)] 0
      = some (selectPhase w1 w2 d) := by
  rw [selectPhase]
  by_cases h1 : d < w1
  · rw [if_pos h1, firstExceeding, if_pos (by linarith)]
  · rw [if_neg h1, firstExceeding, if_neg (by linarith), firstExceeding]
    by_cases h2 : d < w1 + w2
    · rw [if_pos h2, if_pos (by linarith)]
    · rw [if_neg h2, if_neg (by linarith), firstExceeding, if_pos (by linarith)]

/-- Witness for C7 at the repository's weight table and draw 0. -/
theorem selectPhase_cumulative_witness :
    0 < behaviorStartup ∧ 0 < behaviorListening ∧ 0 < behaviorManaging
    ∧ behaviorStartup + behaviorListening + behaviorManaging = 1
    ∧ (0:ℚ) ≤ 0 ∧ (0:ℚ) < 1
    ∧ firstExceeding 0
        [(Phase.startup, behaviorStartup), (Phase.listening, behaviorListening),
          (Phase.managing, behaviorManaging)] 0
      = some (selectPhase behaviorStartup behaviorListening 0) :=
  ⟨by decide, by decide, by decide, by decide, by decide, by decide,
    selectPhase_cumulative behaviorStartup behaviorListening behaviorManaging 0
      (by decide) (by decide) (by decide) (by decide) (by decide) (by decide)⟩

/-- Counterexample for C7 as stated: with the invalid weight table whose
entries are all 0 (each weight ≤ 0, sum ≠ 1) and draw 1/2, the selection
does not fail with any `InvalidWeights` error — it still returns a phase. -/
theorem selectPhase_no_validation_cex :
    selectPhase 0 0 (1/2) = Phase.managing := by decide

/-- Helper: folding the tick step over ticks that all failed leaves the
sample buffer unchanged. -/
theorem monitorTicks_foldl_none (ticks : List (ℕ × Option String))
    (hfail : ∀ p ∈ ticks, p.2 = none) (s : List Sample) :
    ticks.foldl (fun s t => monitorTick s t.1 t.2) s = s := by
  induction ticks generalizing s with
  | nil => rfl
  | cons p rest ih =>
    have hp : p.2 = none := hfail p (by simp)
    rw [List.foldl_cons]
    rw [show monitorTick s p.1 p.2 = s from by rw [hp]; rfl]
    exact ih (fun q hq => hfail q (by simp [hq])) s

/-- C8: a run in which the stats command fails on every tick buffers zero
Samples (and, being a total function, never throws); a single failed tick
appends no Sample and leaves every previously buffered Sample intact. -/
theorem monitorRun_failed_ticks :
    (∀ ticks : List (ℕ × Option String), (∀ p ∈ ticks, p.2 = none) →
      monitorRun ticks = [])
    ∧ ∀ (samples : List Sample) (e : ℕ), monitorTick samples e none = samples :=
  ⟨fun ticks h => monitorTicks_foldl_none ticks h [], fun _ _ => rfl⟩

/-- Witness for C8: three failed ticks buffer nothing, and a failed tick
preserves an existing buffer. -/
theorem monitorRun_failed_ticks_witness :
    monitorRun [(0, none), (2000, none), (4000, none)] = []
    ∧ monitorTick [⟨0, [(("m3w"), ⟨1, 2⟩)]⟩] 6000 none = [⟨0, [(("m3w"), ⟨1, 2⟩)]⟩] :=
  ⟨monitorRun_failed_ticks.1 [(0, none), (2000, none), (4000, none)] (by decide),
    monitorRun_failed_ticks.2 [⟨0, [(("m3w"), ⟨1, 2⟩)]⟩] 6000⟩

end M3W

namespace M3W

/-- Helper: `takeWhile`/`dropWhile` split an append exactly at a failing
head when the whole prefix satisfies the predicate. -/
theorem takeWhile_dropWhile_append (p : Char → Bool) (l1 l2 : List Char) (d : Char)
    (h1 : ∀ c ∈ l1, p c = true) (hd : p d = false) :
    (l1 ++ d :: l2).takeWhile p = l1 ∧ (l1 ++ d :: l2).dropWhile p = d :: l2 := by
  induction l1 with
  | nil => simp [List.takeWhile, List.dropWhile, hd]
  | cons c t ih =>
    have hc : p c = true := h1 c (by simp)
    have iht := ih (fun x hx => h1 x (by simp [hx]))
    simp [List.takeWhile, List.dropWhile, hc, iht.1, iht.2]

/-- Helper: on a memory field of the shape `used-number unit / limit`
(numeric run, then a unit made of word characters that are not in `[\d.]`,
then a space), the modelled regex captures exactly the used number and its
unit. -/
theorem memMatch_wellformed (numA unitA tail : List Char)
    (hne : numA ≠ []) (hnum : ∀ c ∈ numA, isNumDot c = true)
    (hue : unitA ≠ [])
    (hunit : ∀ c ∈ unitA, isWordChar c = true ∧ isNumDot c = false) :
    memMatch (numA ++ unitA ++ (' ' :: ('/' :: (' ' :: tail)))) = some (numA, unitA) := by
  obtain ⟨c, nt, rfl⟩ : ∃ c nt, numA = c :: nt := by
    cases numA with
    | nil => exact absurd rfl hne
    | cons c nt => exact ⟨c, nt, rfl⟩
  obtain ⟨u, ut, rfl⟩ : ∃ u ut, unitA = u :: ut := by
    cases unitA with
    | nil => exact absurd rfl hue
    | cons u ut => exact ⟨u, ut, rfl⟩
  have hc : isNumDot c = true := hnum c (by simp)
  have hnt : ∀ x ∈ nt, isNumDot x = true := fun x hx => hnum x (by simp [hx])
  have hu : isNumDot u = false := (hunit u (by simp)).2
  have hsplit := takeWhile_dropWhile_append isNumDot nt
    (ut ++ (' ' :: ('/' :: (' ' :: tail)))) u hnt hu
  have hword := takeWhile_dropWhile_append isWordChar ut
    ('/' :: (' ' :: tail)) ' ' (fun x hx => (hunit x (by simp [hx])).1) (by decide)
  have harr : (c :: nt) ++ (u :: ut) ++ (' ' :: ('/' :: (' ' :: tail)))
      = c :: (nt ++ u :: (ut ++ (' ' :: ('/' :: (' ' :: tail))))) := by simp
  rw [harr, memMatch, if_pos hc]
  rw [show (nt ++ u :: (ut ++ (' ' :: ('/' :: (' ' :: tail))))).dropWhile isNumDot
      = u :: (ut ++ (' ' :: ('/' :: (' ' :: tail)))) from hsplit.2]
  rw [show (nt ++ u :: (ut ++ (' ' :: ('/' :: (' ' :: tail))))).takeWhile isNumDot
      = nt from hsplit.1]
  have hwu : isWordChar u = true := (hunit u (by simp)).1
  rw [if_neg (by simp [hwu])]
  have hw : ((u :: (ut ++ (' ' :: ('/' :: (' ' :: tail))))).takeWhile isWordChar)
      = u :: ut := by
    simp only [List.takeWhile, hwu, hword.1]
  rw [hw]

end M3W

namespace M3W

/-- C9: the memory parser converts case-insensitively — any unit whose
lower-casing is gib or gb multiplies by 1024, mib or mb is taken as-is,
kib or kb divides by 1024 — and on a `usedValue / limitValue` memory field
the tick records only the used value (first captured number with its unit),
converted by `parseMemory`. -/
theorem parseMemory_units_extraction :
    (∀ (v : ℚ) (u : List Char),
      u.map Char.toLower = ['g', 'i', 'b'] ∨ u.map Char.toLower = ['g', 'b'] →
      parseMemory v u = v * 1024)
    ∧ (∀ (v : ℚ) (u : List Char),
      u.map Char.toLower = ['m', 'i', 'b'] ∨ u.map Char.toLower = ['m', 'b'] →
      parseMemory v u = v)
    ∧ (∀ (v : ℚ) (u : List Char),
      u.map Char.toLower = ['k', 'i', 'b'] ∨ u.map Char.toLower = ['k', 'b'] →
      parseMemory v u = v / 1024)
    ∧ (∀ numA unitA tail : List Char,
      numA ≠ [] → (∀ c ∈ numA, isNumDot c = true) →
      unitA ≠ [] → (∀ c ∈ unitA, isWordChar c = true ∧ isNumDot c = false) →
      memMatch (numA ++ unitA ++ (' ' :: ('/' :: (' ' :: tail)))) = some (numA, unitA)
      ∧ memField (numA ++ unitA ++ (' ' :: ('/' :: (' ' :: tail))))
          = parseMemory (jsParseFloat numA) unitA) := by
  refine ⟨?_, ?_, ?_, ?_⟩
  · intro v u h
    simp only [parseMemory]
    rcases h with h | h <;> rw [h, if_pos (by decide)]
  · intro v u h
    simp only [parseMemory]
    rcases h with h | h <;> rw [h, if_neg (by decide), if_pos (by decide)]
  · intro v u h
    simp only [parseMemory]
    rcases h with h | h <;>
      rw [h, if_neg (by decide), if_neg (by decide), if_pos (by decide)]
  · intro numA unitA tail hne hnum hue hunit
    have hm := memMatch_wellformed numA unitA tail hne hnum hue hunit
    exact ⟨hm, by rw [memField, hm]⟩

/-- Witness for C9 at the unit `GiB` and the memory field `256MiB / 2GiB`. -/
theorem parseMemory_units_extraction_witness :
    ((['G', 'i', 'B'] : List Char).map Char.toLower = ['g', 'i', 'b']
      ∨ (['G', 'i', 'B'] : List Char).map Char.toLower = ['g', 'b'])
    ∧ parseMemory 2 ['G', 'i', 'B'] = 2 * 1024
    ∧ memMatch (['2', '5', '6'] ++ ['M', 'i', 'B']
        ++ (' ' :: ('/' :: (' ' :: ['2', 'G', 'i', 'B']))))
      = some (['2', '5', '6'], ['M', 'i', 'B']) :=
  ⟨by decide,
    parseMemory_units_extraction.1 2 ['G', 'i', 'B'] (by decide),
    (parseMemory_units_extraction.2.2.2 ['2', '5', '6'] ['M', 'i', 'B'] ['2', 'G', 'i', 'B']
      (by decide) (by decide) (by decide) (by decide)).1⟩

end M3W
